import Mathlib

/-!
Verification of the EIA-923 state-efficiency pipeline.

The two Rust modules (`cleaning.rs` and `main.rs`) are shallowly embedded
here.  Modelling conventions:

* `f64` values are modelled as exact rationals (`ℚ`); the program only uses
  finite decimal data, arithmetic (`+`, `/`, `abs`) and comparisons on them.
* `HashMap<String, StateStats>` is modelled as an association list with
  unique keys (`accumulate` below updates in place or appends, which
  preserves key uniqueness, matching `entry().or_default()`).
* The input file is modelled as an optional list of lines: `none` stands for
  a source that cannot be opened (`File::open` failing); reading errors on
  individual lines are dropped by the source's `filter_map(Result::ok)`.
* The csv reader is modelled line-by-line: one line is one record, split
  into fields by `splitLine` (comma separated, double-quote aware).  Header
  based deserialisation of a record (`serde` renames) is `decodeRecord`:
  it fails when the field count differs from the header count (the csv
  crate's default strict length check) or a required column name is absent.
* `str::parse::<f64>` after `replace(",", "")` is modelled by
  `parseFloat ∘ stripCommas`, where `parseFloat` implements the finite
  decimal grammar `sign? digits [. digits] [(e|E) sign? digits]`
  (infinities and NaN are not representable in `ℚ` and never arise from
  the data this pipeline accepts).
-/

namespace EIA

/-- Model of `record.fuel.replace(",", "")`: remove every comma. -/
def stripCommas (s : String) : String := ⟨s.data.filter (fun c => c ≠ ',')⟩

/-- Numeric value of a decimal digit character. -/
def digitVal (c : Char) : Nat := c.toNat - 48

/-- Split a leading run of decimal digits off a character list. -/
def spanDigits : List Char → List Nat × List Char
  | [] => ([], [])
  | c :: rest =>
    if c.isDigit then
      let p := spanDigits rest
      (digitVal c :: p.1, p.2)
    else ([], c :: rest)

/-- Value of a digit list read in base 10. -/
def digitsToNat (ds : List Nat) : Nat := ds.foldl (fun a d => 10 * a + d) 0

/-- Parse the mantissa part `digits [. digits]` (at least one digit
required somewhere), returning its value and the unconsumed characters. -/
def parseMantissa (cs : List Char) : Option (ℚ × List Char) :=
  let p := spanDigits cs
  match p.2 with
  | '.' :: r2 =>
      let q := spanDigits r2
      if p.1.isEmpty ∧ q.1.isEmpty then none
      else some ((digitsToNat p.1 : ℚ) + (digitsToNat q.1 : ℚ) / (10 : ℚ) ^ q.1.length, q.2)
  | _ => if p.1.isEmpty then none else some ((digitsToNat p.1 : ℚ), p.2)

/-- Parse the exponent body `sign? digits` (must consume everything). -/
def parseExpPart (cs : List Char) : Option ℤ :=
  let sp : ℤ × List Char :=
    match cs with
    | '+' :: r => (1, r)
    | '-' :: r => (-1, r)
    | _ => (1, cs)
  let p := spanDigits sp.2
  if p.1.isEmpty ∨ ¬ p.2.isEmpty then none
  else some (sp.1 * digitsToNat p.1)

/-- Model of `str::parse::<f64>()` on the finite-decimal grammar. -/
def parseFloat (s : String) : Option ℚ :=
  let sp : ℚ × List Char :=
    match s.data with
    | '+' :: r => (1, r)
    | '-' :: r => (-1, r)
    | _ => (1, s.data)
  match parseMantissa sp.2 with
  | none => none
  | some (m, rest) =>
    match rest with
    | [] => some (sp.1 * m)
    | 'e' :: r => (parseExpPart r).map (fun e => sp.1 * m * (10 : ℚ) ^ e)
    | 'E' :: r => (parseExpPart r).map (fun e => sp.1 * m * (10 : ℚ) ^ e)
    | _ => none

/-- `struct Record` of `cleaning.rs`: one deserialised csv row. -/
structure Record where
  state : String
  fuel : String
  gen : String
deriving DecidableEq

/-- `struct StateStats` of `cleaning.rs` (`f64` fields as `ℚ`). -/
structure StateStats where
  total_fuel : ℚ
  total_gen : ℚ
deriving DecidableEq

/-- The serde rename of the `state` field. -/
def headerState : String := "Plant State"

/-- The serde rename of the `fuel` field. -/
def headerFuel : String := "Total Fuel Consumption\nMMBtu"

/-- The serde rename of the `gen` field. -/
def headerGen : String := "Net Generation\n(Megawatthours)"

/-- Header-driven deserialisation of one record into `Record` (csv +
serde): fails when the field count differs from the header count or one
of the three renamed columns is missing from the header. -/
def decodeRecord (headers fields : List String) : Option Record :=
  if fields.length = headers.length then
    match headers.indexOf? headerState, headers.indexOf? headerFuel,
          headers.indexOf? headerGen with
    | some si, some fi, some gi =>
      match fields[si]?, fields[fi]?, fields[gi]? with
      | some s, some f, some g => some ⟨s, f, g⟩
      | _, _, _ => none
    | _, _, _ => none
  else none

/-- Loader state: the map under construction plus the two diagnostic
counters of `load_state_efficiency`. -/
structure LoadState where
  state_map : List (String × StateStats)
  valid_rows : Nat
  skipped_rows : Nat
deriving DecidableEq

/-- Association-list lookup (model of `HashMap` lookup). -/
def lookupState (m : List (String × StateStats)) (s : String) : Option StateStats :=
  match m with
  | [] => none
  | kv :: rest => if kv.1 = s then some kv.2 else lookupState rest s

/-- Model of `state_map.entry(state).or_default()` followed by the two
`+=` updates: update the existing entry in place, or append a fresh entry
whose fields start at zero before the addition. -/
def accumulate (m : List (String × StateStats)) (s : String) (f g : ℚ) :
    List (String × StateStats) :=
  match m with
  | [] => [(s, ⟨0 + f, 0 + g⟩)]
  | kv :: rest =>
    if kv.1 = s then (kv.1, ⟨kv.2.total_fuel + f, kv.2.total_gen + g⟩) :: rest
    else kv :: accumulate rest s f g

/-- The body of the `for result in rdr.deserialize::<Record>()` loop of
`load_state_efficiency`, for one record. -/
def processRow (headers : List String) (st : LoadState) (fields : List String) :
    LoadState :=
  match decodeRecord headers fields with
  | none => { st with skipped_rows := st.skipped_rows + 1 }
  | some record =>
    match parseFloat (stripCommas record.fuel) with
    | none => { st with skipped_rows := st.skipped_rows + 1 }
    | some fuel_val =>
      match parseFloat (stripCommas record.gen) with
      | none => { st with skipped_rows := st.skipped_rows + 1 }
      | some gen_val =>
        if gen_val = 0 then { st with skipped_rows := st.skipped_rows + 1 }
        else { st with
                 state_map := accumulate st.state_map record.state fuel_val gen_val,
                 valid_rows := st.valid_rows + 1 }

/-- The whole record loop, from the empty map and zeroed counters. -/
def processRows (headers : List String) (rows : List (List String)) : LoadState :=
  rows.foldl (processRow headers) ⟨[], 0, 0⟩

/-- Split one csv line into fields: comma separated, where a double quote
opens a quoted section in which commas are literal and `""` is an escaped
quote (the csv crate's default dialect, restricted to one line). -/
def splitFields : List Char → Bool → List Char → List String
  | [], _, acc => [⟨acc.reverse⟩]
  | c :: rest, inQ, acc =>
    if inQ then
      if c = '"' then
        if rest.head? = some '"' then splitFields rest.tail true ('"' :: acc)
        else splitFields rest false acc
      else splitFields rest true (c :: acc)
    else
      if c = ',' then ⟨acc.reverse⟩ :: splitFields rest false []
      else if c = '"' then splitFields rest true acc
      else splitFields rest false (c :: acc)
termination_by cs _ _ => cs.length
decreasing_by
all_goals simp [List.length_tail]
all_goals omega

/-- Fields of one csv line. -/
def splitLine (s : String) : List String := splitFields s.data false []

/-- `load_state_efficiency` after the file has been read into lines:
skip the 5 metadata lines, take the next line as the csv header, every
later line as a data record. -/
def loadLines (lines : List String) : LoadState :=
  match lines.drop 5 with
  | [] => ⟨[], 0, 0⟩
  | headerLine :: dataLines =>
    processRows (splitLine headerLine) (dataLines.map splitLine)

/-- `load_state_efficiency`: `none` models a source that cannot be opened
(`File::open` returns `Err`, propagated by `?`).  On a readable source the
function always returns `Ok`: per-line read errors are dropped by
`filter_map(Result::ok)`, the joined content is valid text, so the csv
`headers()?` call cannot fail on it, and every record-level problem is
handled inside the loop by skipping. -/
def load_state_efficiency (source : Option (List String)) : Except Unit LoadState :=
  match source with
  | none => .error ()
  | some lines => .ok (loadLines lines)

/-- The accepted (state, fuel, generation) triple of one record, `none`
when the record is rejected: the composite of the decode step, the two
numeric parses and the zero-generation check. -/
def rowParse (headers fields : List String) : Option (String × ℚ × ℚ) :=
  match decodeRecord headers fields with
  | none => none
  | some record =>
    match parseFloat (stripCommas record.fuel) with
    | none => none
    | some fuel_val =>
      match parseFloat (stripCommas record.gen) with
      | none => none
      | some gen_val =>
        if gen_val = 0 then none else some (record.state, fuel_val, gen_val)

/-- All accepted triples of a record list, in order. -/
def acceptedRows (headers : List String) (rows : List (List String)) :
    List (String × ℚ × ℚ) :=
  rows.filterMap (rowParse headers)

/-- Accepted triples belonging to one state. -/
def rowsFor (s : String) (l : List (String × ℚ × ℚ)) : List (String × ℚ × ℚ) :=
  l.filter (fun t => t.1 = s)

/-- Sum of the fuel components. -/
def sumFuel (l : List (String × ℚ × ℚ)) : ℚ := (l.map (fun t => t.2.1)).sum

/-- Sum of the generation components. -/
def sumGen (l : List (String × ℚ × ℚ)) : ℚ := (l.map (fun t => t.2.2)).sum

/-- `struct StateEfficiency` of `main.rs` (`f64` fields as `ℚ`). -/
structure StateEfficiency where
  state : String
  eff_2019 : ℚ
  eff_2020 : ℚ
  delta : ℚ
  abs_delta : ℚ
deriving DecidableEq

/-- `compute_efficiency_changes` of `main.rs`: iterate the 2019 map; for a
state also present in 2020 whose generation is nonzero in both years, emit
the efficiency record. -/
def compute_efficiency_changes (stats_2019 stats_2020 : List (String × StateStats)) :
    List StateEfficiency :=
  stats_2019.filterMap (fun (p : String × StateStats) =>
    match lookupState stats_2020 p.1 with
    | none => none
    | some stat_2020 =>
      if p.2.total_gen = 0 ∨ stat_2020.total_gen = 0 then none
      else
        let eff_2019 := p.2.total_fuel / p.2.total_gen
        let eff_2020 := stat_2020.total_fuel / stat_2020.total_gen
        let delta := eff_2020 - eff_2019
        some ⟨p.1, eff_2019, eff_2020, delta, |delta|⟩)

/-- The sort of `main`: stable sort, descending by `abs_delta`
(`sort_by(|a, b| b.abs_delta.partial_cmp(&a.abs_delta).unwrap())`, on
values where the comparison is total). -/
def rank (l : List StateEfficiency) : List StateEfficiency :=
  l.mergeSort (fun a b => decide (b.abs_delta ≤ a.abs_delta))

/-- `display_top_states`' selection: `data.iter().take(top_n)`. -/
def top (n : Nat) (l : List StateEfficiency) : List StateEfficiency := l.take n

/-- Combined effect on one map entry of a run of accepted rows: absent
entries stay absent when no row contributes, otherwise fields accumulate
on top of the entry created (at zero) by the first contribution. -/
def addStats (v : Option StateStats) (acc : List (String × ℚ × ℚ)) :
    Option StateStats :=
  match acc, v with
  | [], w => w
  | _, none => some ⟨sumFuel acc, sumGen acc⟩
  | _, some w => some ⟨w.total_fuel + sumFuel acc, w.total_gen + sumGen acc⟩

/-- An `f64` as seen by `partial_cmp`: either NaN (incomparable) or an
ordinary value, modelled as a rational. -/
inductive F64 where
  | nan : F64
  | val : ℚ → F64
deriving DecidableEq

/-- `StateEfficiency` with the sort key left at `f64` granularity, for the
analysis of the comparator of `main`'s sort. -/
structure StateEfficiencyF where
  state : String
  abs_delta : F64
deriving DecidableEq

/-- `f64::partial_cmp`: `None` exactly when either side is NaN. -/
def pcmpF : F64 → F64 → Option Ordering
  | F64.val a, F64.val b =>
      some (if a < b then Ordering.lt else if a = b then Ordering.eq else Ordering.gt)
  | _, _ => none

/-- The sort comparator of `main`:
`|a, b| b.abs_delta.partial_cmp(&a.abs_delta).unwrap()` — the `unwrap`'s
panic branch is the `error` case. -/
def cmpByAbsDelta (a b : StateEfficiencyF) : Except Unit Ordering :=
  match pcmpF b.abs_delta a.abs_delta with
  | none => Except.error ()
  | some o => Except.ok o

/-- Merge step of a comparison sort whose comparator may panic; the panic
propagates. -/
def mergeE {α : Type} (cmp : α → α → Except Unit Ordering) :
    List α → List α → Except Unit (List α)
  | [], ys => Except.ok ys
  | x :: xs, [] => Except.ok (x :: xs)
  | x :: xs, y :: ys => do
    match ← cmp x y with
    | Ordering.gt => do
        let r ← mergeE cmp (x :: xs) ys
        Except.ok (y :: r)
    | _ => do
        let r ← mergeE cmp xs (y :: ys)
        Except.ok (x :: r)
termination_by xs ys => xs.length + ys.length

/-- `slice::sort_by` with a panicking comparator, modelled as a merge sort
in which every comparison is a call of `cmp` and a panic aborts the sort. -/
def sortByE {α : Type} (cmp : α → α → Except Unit Ordering) (l : List α) :
    Except Unit (List α) :=
  if h : l.length ≤ 1 then Except.ok l
  else do
    let a ← sortByE cmp (l.take (l.length / 2))
    let b ← sortByE cmp (l.drop (l.length / 2))
    mergeE cmp a b
termination_by l.length
decreasing_by
all_goals simp
all_goals omega

/-! ### Helper lemmas shared by the theorems below -/

theorem lookupState_eq_none (m : List (String × StateStats)) (s : String)
    (h : s ∉ m.map Prod.fst) : lookupState m s = none := by
  induction m with
  | nil => rfl
  | cons kv rest ih =>
    simp only [List.map_cons, List.mem_cons, not_or] at h
    simp only [lookupState]
    rw [if_neg (fun he => h.1 he.symm)]
    exact ih h.2

theorem addStats_cons (v : Option StateStats) (x : String × ℚ × ℚ)
    (acc : List (String × ℚ × ℚ)) :
    addStats v (x :: acc) = addStats (addStats v [x]) acc := by
  cases v <;> cases acc <;>
    simp [addStats, sumFuel, sumGen, add_assoc]

theorem lookupState_accumulate (m : List (String × StateStats)) (s : String)
    (f g : ℚ) (t : String) :
    lookupState (accumulate m s f g) t =
      if t = s then addStats (lookupState m s) [(s, f, g)] else lookupState m t := by
  induction m with
  | nil =>
    by_cases h : t = s
    · subst h
      simp [accumulate, lookupState, addStats, sumFuel, sumGen]
    · simp only [accumulate, lookupState]
      rw [if_neg (fun he : s = t => h he.symm), if_neg h]
  | cons kv rest ih =>
    simp only [accumulate]
    by_cases hk : kv.1 = s
    · rw [if_pos hk]
      by_cases ht : t = s
      · subst ht
        simp only [lookupState, if_pos hk, if_pos rfl]
        simp [addStats, sumFuel, sumGen]
      · have hkt : ¬ kv.1 = t := fun he => ht (he.symm.trans hk)
        simp only [lookupState]
        rw [if_neg hkt, if_neg hkt, if_neg ht]
    · rw [if_neg hk]
      simp only [lookupState]
      by_cases ht : t = s
      · subst ht
        rw [if_neg hk, if_pos rfl, ih, if_pos rfl, if_neg hk]
      · rw [ih, if_neg ht, if_neg ht]

theorem processRow_eq_none (headers : List String) (st : LoadState)
    (fields : List String) (h : rowParse headers fields = none) :
    processRow headers st fields = { st with skipped_rows := st.skipped_rows + 1 } := by
  unfold rowParse at h
  unfold processRow
  cases hd : decodeRecord headers fields with
  | none => rfl
  | some record =>
    simp only [hd] at h ⊢
    cases hf : parseFloat (stripCommas record.fuel) with
    | none => rfl
    | some fuel_val =>
      simp only [hf] at h ⊢
      cases hg : parseFloat (stripCommas record.gen) with
      | none => rfl
      | some gen_val =>
        simp only [hg] at h ⊢
        by_cases hz : gen_val = 0
        · simp [hz]
        · simp [hz] at h

theorem processRow_eq_some (headers : List String) (st : LoadState)
    (fields : List String) (s : String) (f g : ℚ)
    (h : rowParse headers fields = some (s, f, g)) :
    processRow headers st fields =
      { st with state_map := accumulate st.state_map s f g,
                valid_rows := st.valid_rows + 1 } := by
  unfold rowParse at h
  unfold processRow
  cases hd : decodeRecord headers fields with
  | none => simp [hd] at h
  | some record =>
    simp only [hd] at h ⊢
    cases hf : parseFloat (stripCommas record.fuel) with
    | none => simp [hf] at h
    | some fuel_val =>
      simp only [hf] at h ⊢
      cases hg : parseFloat (stripCommas record.gen) with
      | none => simp [hg] at h
      | some gen_val =>
        simp only [hg] at h ⊢
        by_cases hz : gen_val = 0
        · simp [hz] at h
        · simp only [if_neg hz, Option.some.injEq, Prod.mk.injEq] at h
          obtain ⟨hs, hf2, hg2⟩ := h
          simp [hz, hs, hf2, hg2]
          exact hg2 ▸ hz

theorem lookup_foldl (headers : List String) (rows : List (List String)) :
    ∀ (st : LoadState) (s : String),
      lookupState (rows.foldl (processRow headers) st).state_map s =
        addStats (lookupState st.state_map s)
                 (rowsFor s (acceptedRows headers rows)) := by
  induction rows with
  | nil => intro st s; simp [acceptedRows, rowsFor, addStats]
  | cons row rows ih =>
    intro st s
    rw [List.foldl_cons]
    cases hp : rowParse headers row with
    | none =>
      rw [processRow_eq_none headers st row hp]
      rw [ih]
      simp [acceptedRows, List.filterMap_cons, hp]
    | some t =>
      obtain ⟨s0, f, g⟩ := t
      rw [processRow_eq_some headers st row s0 f g hp]
      rw [ih]
      simp only [acceptedRows, List.filterMap_cons, hp]
      by_cases hs : s0 = s
      · have hfil : rowsFor s ((s0, f, g) :: (rows.filterMap (rowParse headers))) =
            (s0, f, g) :: rowsFor s (rows.filterMap (rowParse headers)) := by
          simp [rowsFor, List.filter_cons, hs]
        rw [hfil, addStats_cons]
        rw [lookupState_accumulate, if_pos hs.symm, hs]
      · have hfil : rowsFor s ((s0, f, g) :: (rows.filterMap (rowParse headers))) =
            rowsFor s (rows.filterMap (rowParse headers)) := by
          simp [rowsFor, List.filter_cons, hs]
        rw [hfil]
        rw [lookupState_accumulate, if_neg (fun he : s = s0 => hs he.symm)]

/-! ### Claim theorems -/

/-- C1: after loading, each state's `total_fuel` and `total_gen` in the
resulting mapping equal the sums of the cleaned fuel and generation values
over exactly the rows accepted for that state, and a state has an entry in
the mapping only if at least one accepted row contributed to it. -/
theorem load_totals_are_accepted_sums (headers : List String)
    (rows : List (List String)) (s : String) :
    lookupState (processRows headers rows).state_map s =
      (if rowsFor s (acceptedRows headers rows) = [] then none
       else some ⟨sumFuel (rowsFor s (acceptedRows headers rows)),
                  sumGen (rowsFor s (acceptedRows headers rows))⟩) := by
  unfold processRows
  rw [lookup_foldl]
  cases h : rowsFor s (acceptedRows headers rows) with
  | nil => simp [lookupState, addStats]
  | cons x t => simp [lookupState, addStats]

/-- C2: one data row is rejected — the skip counter is incremented and the
mapping and valid counter are untouched — exactly when the record fails to
decode against the expected columns, or the fuel or generation text fails
to parse as a number after comma removal, or the parsed generation value is
exactly zero. -/
theorem row_rejected_iff (headers : List String) (st : LoadState)
    (fields : List String) :
    processRow headers st fields = { st with skipped_rows := st.skipped_rows + 1 }
      ↔ (decodeRecord headers fields = none
         ∨ ∃ r, decodeRecord headers fields = some r
             ∧ (parseFloat (stripCommas r.fuel) = none
                ∨ parseFloat (stripCommas r.gen) = none
                ∨ parseFloat (stripCommas r.gen) = some 0)) := by
  constructor
  · intro h
    unfold processRow at h
    cases hd : decodeRecord headers fields with
    | none => exact Or.inl rfl
    | some record =>
      refine Or.inr ⟨record, rfl, ?_⟩
      simp only [hd] at h
      cases hf : parseFloat (stripCommas record.fuel) with
      | none => exact Or.inl rfl
      | some fuel_val =>
        simp only [hf] at h
        cases hg : parseFloat (stripCommas record.gen) with
        | none => exact Or.inr (Or.inl rfl)
        | some gen_val =>
          simp only [hg] at h
          by_cases hz : gen_val = 0
          · exact Or.inr (Or.inr (hz ▸ rfl))
          · exfalso
            rw [if_neg hz] at h
            cases st with
            | mk m v k =>
              simp only [LoadState.mk.injEq] at h
              omega
  · intro h
    have hp : rowParse headers fields = none := by
      unfold rowParse
      rcases h with hd | ⟨r, hd, hr⟩
      · simp [hd]
      · simp only [hd]
        rcases hr with hf | hg | hg0
        · simp [hf]
        · cases hf : parseFloat (stripCommas r.fuel) with
          | none => simp [hf]
          | some fuel_val => simp [hf, hg]
        · cases hf : parseFloat (stripCommas r.fuel) with
          | none => simp [hf]
          | some fuel_val => simp [hf, hg0]
    exact processRow_eq_none headers st fields hp

theorem compute_cons (kv : String × StateStats) (rest b : List (String × StateStats)) :
    compute_efficiency_changes (kv :: rest) b =
      (match lookupState b kv.1 with
       | none => []
       | some sb =>
         if kv.2.total_gen = 0 ∨ sb.total_gen = 0 then []
         else [⟨kv.1, kv.2.total_fuel / kv.2.total_gen, sb.total_fuel / sb.total_gen,
               sb.total_fuel / sb.total_gen - kv.2.total_fuel / kv.2.total_gen,
               |sb.total_fuel / sb.total_gen - kv.2.total_fuel / kv.2.total_gen|⟩])
      ++ compute_efficiency_changes rest b := by
  unfold compute_efficiency_changes
  rw [List.filterMap_cons]
  cases hb : lookupState b kv.1 with
  | none => simp
  | some sb =>
    by_cases hg : kv.2.total_gen = 0 ∨ sb.total_gen = 0 <;> simp [hg]

theorem compute_emit (a b : List (String × StateStats)) (e : StateEfficiency)
    (he : e ∈ compute_efficiency_changes a b) :
    ∃ p : String × StateStats, p ∈ a ∧ ∃ sb,
      lookupState b p.1 = some sb ∧
      p.2.total_gen ≠ 0 ∧ sb.total_gen ≠ 0 ∧
      e = ⟨p.1, p.2.total_fuel / p.2.total_gen, sb.total_fuel / sb.total_gen,
           sb.total_fuel / sb.total_gen - p.2.total_fuel / p.2.total_gen,
           |sb.total_fuel / sb.total_gen - p.2.total_fuel / p.2.total_gen|⟩ := by
  unfold compute_efficiency_changes at he
  rw [List.mem_filterMap] at he
  obtain ⟨p, hpa, hpe⟩ := he
  cases hb : lookupState b p.1 with
  | none => simp [hb] at hpe
  | some sb =>
    simp only [hb] at hpe
    by_cases hg : p.2.total_gen = 0 ∨ sb.total_gen = 0
    · simp [hg] at hpe
    · simp only [if_neg hg, Option.some.injEq] at hpe
      push_neg at hg
      exact ⟨p, hpa, sb, hb, hg.1, hg.2, hpe.symm⟩

/-- C3: with distinct state keys in the first mapping,
`compute_efficiency_changes` emits exactly one result for a state present
in both mappings with nonzero `total_gen` in both years, and none for a
state absent from either mapping or with zero `total_gen` in either. -/
theorem compare_emits_exactly_qualifying (a b : List (String × StateStats))
    (s : String) (hnodup : (a.map Prod.fst).Nodup) :
    (compute_efficiency_changes a b).countP (fun e => e.state = s) =
      (match lookupState a s, lookupState b s with
       | some sa, some sb => if sa.total_gen ≠ 0 ∧ sb.total_gen ≠ 0 then 1 else 0
       | _, _ => 0) := by
  induction a with
  | nil => simp [compute_efficiency_changes, lookupState]
  | cons kv rest ih =>
    rw [List.map_cons, List.nodup_cons] at hnodup
    obtain ⟨hkn, hrest⟩ := hnodup
    rw [compute_cons, List.countP_append, ih hrest]
    by_cases hs : kv.1 = s
    · have hrs : lookupState rest s = none :=
        lookupState_eq_none rest s (hs ▸ hkn)
      have hla : lookupState (kv :: rest) s = some kv.2 := by
        simp [lookupState, hs]
      rw [hla, hrs]
      cases hb : lookupState b kv.1 with
      | none =>
        rw [hs] at hb
        rw [hb]
        simp
      | some sb =>
        rw [hs] at hb
        rw [hb]
        by_cases hg : kv.2.total_gen = 0 ∨ sb.total_gen = 0
        · rw [← hs] at hb
          simp only [hb]
          rw [if_pos hg]
          have : ¬ (kv.2.total_gen ≠ 0 ∧ sb.total_gen ≠ 0) := by tauto
          simp [this]
        · rw [← hs] at hb
          simp only [hb]
          rw [if_neg hg]
          push_neg at hg
          simp [hs, hg.1, hg.2]
    · have hla : lookupState (kv :: rest) s = lookupState rest s := by
        simp [lookupState, hs]
      rw [hla]
      cases hb : lookupState b kv.1 with
      | none => simp [hb]
      | some sb =>
        simp only [hb]
        by_cases hg : kv.2.total_gen = 0 ∨ sb.total_gen = 0
        · rw [if_pos hg]
          simp
        · rw [if_neg hg]
          simp [hs]

/-- C4: every emitted result satisfies `eff_year_a = fuel_a / gen_a`,
`eff_year_b = fuel_b / gen_b`, `delta = eff_year_b - eff_year_a` and
`abs_delta = |delta|`; and on TX with (1000, 100) against (800, 100) the
result is (10, 8, -2, 2). -/
theorem compare_result_formulas (a b : List (String × StateStats))
    (e : StateEfficiency) (he : e ∈ compute_efficiency_changes a b) :
    (∃ sa sb, (e.state, sa) ∈ a ∧ lookupState b e.state = some sb
       ∧ sa.total_gen ≠ 0 ∧ sb.total_gen ≠ 0
       ∧ e.eff_2019 = sa.total_fuel / sa.total_gen
       ∧ e.eff_2020 = sb.total_fuel / sb.total_gen
       ∧ e.delta = e.eff_2020 - e.eff_2019
       ∧ e.abs_delta = |e.delta|)
    ∧ compute_efficiency_changes [("TX", ⟨1000, 100⟩)] [("TX", ⟨800, 100⟩)]
        = [⟨"TX", 10, 8, -2, 2⟩] := by
  constructor
  · obtain ⟨p, hpa, sb, hb, h1, h2, hee⟩ := compute_emit a b e he
    subst hee
    exact ⟨p.2, sb, by simpa using hpa, hb, h1, h2, rfl, rfl, rfl, rfl⟩
  · norm_num [compute_efficiency_changes, lookupState, List.filterMap_cons,
              List.filterMap_nil, StateEfficiency.mk.injEq]

/-- C5: the ranked list is sorted non-increasing by `abs_delta`, and the
top-n selection is exactly the first `min n (length)` elements of the
ranked list (a leading segment of it). -/
theorem rank_sorted_and_top_is_first_min (l : List StateEfficiency) (n : Nat) :
    (rank l).Pairwise (fun x y => y.abs_delta ≤ x.abs_delta)
    ∧ top n (rank l) = (rank l).take n
    ∧ (top n (rank l)).length = min n l.length
    ∧ top n (rank l) ++ (rank l).drop n = rank l := by
  refine ⟨?_, rfl, ?_, ?_⟩
  · have hs := @List.sorted_mergeSort StateEfficiency
      (fun a b => decide (b.abs_delta ≤ a.abs_delta))
      (fun a b c hab hbc => by
        simp only [decide_eq_true_eq] at hab hbc ⊢
        exact le_trans hbc hab)
      (fun a b => by
        simp only [Bool.or_eq_true, decide_eq_true_eq]
        exact le_total b.abs_delta a.abs_delta)
      l
    exact hs.imp (fun h => of_decide_eq_true h)
  · simp [top, rank, List.length_take, List.length_mergeSort]
  · exact List.take_append_drop n (rank l)

/-- C6: loading returns an error only when the source cannot be opened at
all; on every readable source it returns a successful result. -/
theorem load_error_only_unreadable (source : Option (List String)) :
    ((∃ e, load_state_efficiency source = Except.error e) → source = none)
    ∧ (source ≠ none → ∃ st, load_state_efficiency source = Except.ok st) := by
  cases source with
  | none => exact ⟨fun _ => rfl, fun h => absurd rfl h⟩
  | some lines =>
    refine ⟨fun he => ?_, fun _ => ⟨loadLines lines, rfl⟩⟩
    obtain ⟨e, he⟩ := he
    simp [load_state_efficiency] at he

/-- C7: the loader discards exactly the first 5 lines whatever they
contain, then treats the next line as the header row and all later lines
as data rows. -/
theorem loader_discards_first_five_lines (pre rest : List String)
    (h : pre.length = 5) :
    loadLines (pre ++ rest) =
      (match rest with
       | [] => (⟨[], 0, 0⟩ : LoadState)
       | headerLine :: dataLines =>
           processRows (splitLine headerLine) (dataLines.map splitLine)) := by
  unfold loadLines
  rw [← h, List.drop_left]

/-- C10: a readable source with at most six lines (no data rows after the
preamble and header, in particular sources shorter than the preamble)
loads successfully with an empty mapping and zero counters. -/
theorem short_source_yields_empty_ok (lines : List String)
    (h : lines.length ≤ 6) :
    load_state_efficiency (some lines) = Except.ok ⟨[], 0, 0⟩ := by
  show Except.ok (loadLines lines) = Except.ok (⟨[], 0, 0⟩ : LoadState)
  unfold loadLines
  cases hd : lines.drop 5 with
  | nil => rfl
  | cons a t =>
    have hlen : (lines.drop 5).length = lines.length - 5 := List.length_drop 5 lines
    rw [hd] at hlen
    simp only [List.length_cons] at hlen
    have ht : t = [] := List.eq_nil_of_length_eq_zero (by omega)
    subst ht
    rfl

/-- C8 counterexample: a loaded mapping can hold a negative `total_fuel`
(the parser accepts negative numbers), so the accumulated fields are not
monotonically increasing from zero and need not be non-negative. -/
theorem returned_totals_can_be_negative :
    lookupState (processRows [headerState, headerFuel, headerGen]
        [["TX", "-5", "1"]]).state_map "TX"
      = some ⟨-5, 1⟩
    ∧ ¬ (0 ≤ (-5 : ℚ)) := by
  constructor
  · have hf : parseFloat (stripCommas "-5") = some (-5) := by
      have h0 : parseFloat (stripCommas "-5") = some ((-1 : ℚ) * ((5 : ℕ) : ℚ)) := rfl
      rw [h0]; norm_num
    have hg : parseFloat (stripCommas "1") = some 1 := by
      have h0 : parseFloat (stripCommas "1") = some ((1 : ℚ) * ((1 : ℕ) : ℚ)) := rfl
      rw [h0]; norm_num
    have hrp : rowParse [headerState, headerFuel, headerGen] ["TX", "-5", "1"]
        = some ("TX", -5, 1) := by
      unfold rowParse
      have hd : decodeRecord [headerState, headerFuel, headerGen] ["TX", "-5", "1"]
          = some ⟨"TX", "-5", "1"⟩ := rfl
      simp only [hd]
      simp only [hf, hg]
      norm_num
    unfold processRows
    rw [lookup_foldl]
    have hacc : rowsFor "TX" (acceptedRows [headerState, headerFuel, headerGen]
        [["TX", "-5", "1"]]) = [("TX", -5, 1)] := by
      simp [acceptedRows, rowsFor, List.filterMap_cons, hrp]
    rw [hacc]
    simp [lookupState, addStats, sumFuel, sumGen]
  · norm_num

/-- C8 amended: the fields of a state's entry start at zero on creation
and change by the accepted rows' parsed values; since negative values are
accepted, monotonicity holds only conditionally: when every accepted row
carries non-negative fuel and generation values, both fields of every
entry in the returned mapping are non-negative. -/
theorem totals_nonneg_of_nonneg_accepted (headers : List String)
    (rows : List (List String)) (s : String) (v : StateStats)
    (hnn : ∀ t ∈ acceptedRows headers rows, 0 ≤ t.2.1 ∧ 0 ≤ t.2.2)
    (hv : lookupState (processRows headers rows).state_map s = some v) :
    0 ≤ v.total_fuel ∧ 0 ≤ v.total_gen := by
  unfold processRows at hv
  rw [lookup_foldl] at hv
  cases hacc : rowsFor s (acceptedRows headers rows) with
  | nil =>
    rw [hacc] at hv
    simp [lookupState, addStats] at hv
  | cons x t =>
    rw [hacc] at hv
    simp only [lookupState, addStats, Option.some.injEq] at hv
    have hsub : ∀ u ∈ x :: t, u ∈ acceptedRows headers rows := by
      intro u hu
      have : u ∈ rowsFor s (acceptedRows headers rows) := hacc ▸ hu
      exact List.mem_of_mem_filter this
    have hfuel : 0 ≤ sumFuel (x :: t) := by
      apply List.sum_nonneg
      intro q hq
      rw [List.mem_map] at hq
      obtain ⟨u, hu, hq⟩ := hq
      exact hq ▸ (hnn u (hsub u hu)).1
    have hgen : 0 ≤ sumGen (x :: t) := by
      apply List.sum_nonneg
      intro q hq
      rw [List.mem_map] at hq
      obtain ⟨u, hu, hq⟩ := hq
      exact hq ▸ (hnn u (hsub u hu)).2
    rw [← hv]
    exact ⟨hfuel, hgen⟩

theorem mergeE_ok {α : Type} (cmp : α → α → Except Unit Ordering) :
    ∀ (n : Nat) (xs ys : List α), xs.length + ys.length ≤ n →
      (∀ x ∈ xs, ∀ y ∈ ys, ∃ o, cmp x y = Except.ok o) →
      ∃ r, mergeE cmp xs ys = Except.ok r ∧ ∀ z ∈ r, z ∈ xs ∨ z ∈ ys := by
  intro n
  induction n with
  | zero =>
    intro xs ys hlen hcmp
    cases xs with
    | nil => exact ⟨ys, by simp [mergeE], fun z hz => Or.inr hz⟩
    | cons x xs => simp at hlen
  | succ n ih =>
    intro xs ys hlen hcmp
    cases xs with
    | nil => exact ⟨ys, by simp [mergeE], fun z hz => Or.inr hz⟩
    | cons x xs =>
      cases ys with
      | nil => exact ⟨x :: xs, by simp [mergeE], fun z hz => Or.inl hz⟩
      | cons y ys =>
        obtain ⟨o, ho⟩ := hcmp x (by simp) y (by simp)
        cases o with
        | gt =>
          obtain ⟨r, hr, hm⟩ := ih (x :: xs) ys
            (by simp at hlen ⊢; omega)
            (fun a ha b hb => hcmp a ha b (by simp [hb]))
          refine ⟨y :: r, ?_, ?_⟩
          · simp only [mergeE, ho, hr]
            rfl
          · intro z hz
            rcases List.mem_cons.mp hz with hz | hz
            · exact Or.inr (by simp [hz])
            · rcases hm z hz with h | h
              · exact Or.inl h
              · exact Or.inr (by simp [h])
        | lt =>
          obtain ⟨r, hr, hm⟩ := ih xs (y :: ys)
            (by simp at hlen ⊢; omega)
            (fun a ha b hb => hcmp a (by simp [ha]) b hb)
          refine ⟨x :: r, ?_, ?_⟩
          · simp only [mergeE, ho, hr]
            rfl
          · intro z hz
            rcases List.mem_cons.mp hz with hz | hz
            · exact Or.inl (by simp [hz])
            · rcases hm z hz with h | h
              · exact Or.inl (by simp [h])
              · exact Or.inr h
        | eq =>
          obtain ⟨r, hr, hm⟩ := ih xs (y :: ys)
            (by simp at hlen ⊢; omega)
            (fun a ha b hb => hcmp a (by simp [ha]) b hb)
          refine ⟨x :: r, ?_, ?_⟩
          · simp only [mergeE, ho, hr]
            rfl
          · intro z hz
            rcases List.mem_cons.mp hz with hz | hz
            · exact Or.inl (by simp [hz])
            · rcases hm z hz with h | h
              · exact Or.inl (by simp [h])
              · exact Or.inr h

theorem sortByE_ok {α : Type} (cmp : α → α → Except Unit Ordering) :
    ∀ (n : Nat) (l : List α), l.length ≤ n →
      (∀ x ∈ l, ∀ y ∈ l, ∃ o, cmp x y = Except.ok o) →
      ∃ r, sortByE cmp l = Except.ok r ∧ ∀ z ∈ r, z ∈ l := by
  intro n
  induction n with
  | zero =>
    intro l hl hcmp
    have hnil : l = [] := List.eq_nil_of_length_eq_zero (by omega)
    subst hnil
    exact ⟨[], by simp [sortByE], by simp⟩
  | succ n ih =>
    intro l hl hcmp
    by_cases h1 : l.length ≤ 1
    · refine ⟨l, ?_, fun z hz => hz⟩
      unfold sortByE
      rw [dif_pos h1]
    · have hta : (l.take (l.length / 2)).length ≤ n := by
        simp [List.length_take]; omega
      have htd : (l.drop (l.length / 2)).length ≤ n := by
        simp [List.length_drop]; omega
      obtain ⟨ra, hra, hma⟩ := ih (l.take (l.length / 2)) hta
        (fun x hx y hy =>
          hcmp x (List.take_subset _ _ hx) y (List.take_subset _ _ hy))
      obtain ⟨rb, hrb, hmb⟩ := ih (l.drop (l.length / 2)) htd
        (fun x hx y hy =>
          hcmp x (List.drop_subset _ _ hx) y (List.drop_subset _ _ hy))
      obtain ⟨r, hr, hm⟩ := mergeE_ok cmp (ra.length + rb.length) ra rb le_rfl
        (fun x hx y hy =>
          hcmp x (List.take_subset _ _ (hma x hx)) y (List.drop_subset _ _ (hmb y hy)))
      refine ⟨r, ?_, fun z hz => ?_⟩
      · unfold sortByE
        rw [dif_neg h1]
        simp only [hra, hrb]
        exact hr
      · rcases hm z hz with h | h
        · exact List.take_subset _ _ (hma z h)
        · exact List.drop_subset _ _ (hmb z h)

/-- C9: when no `abs_delta` is NaN, every comparison of `main`'s sort
succeeds, so the sort completes without reaching the `unwrap` panic. -/
theorem sort_by_unwrap_no_panic (l : List StateEfficiencyF)
    (h : ∀ e ∈ l, e.abs_delta ≠ F64.nan) :
    ∃ r, sortByE cmpByAbsDelta l = Except.ok r := by
  have hcmp : ∀ x ∈ l, ∀ y ∈ l, ∃ o, cmpByAbsDelta x y = Except.ok o := by
    intro x hx y hy
    cases hxv : x.abs_delta with
    | nan => exact absurd hxv (h x hx)
    | val qx =>
      cases hyv : y.abs_delta with
      | nan => exact absurd hyv (h y hy)
      | val qy =>
        exact ⟨if qy < qx then Ordering.lt else if qy = qx then Ordering.eq
               else Ordering.gt, by simp [cmpByAbsDelta, pcmpF, hxv, hyv]⟩
  obtain ⟨r, hr, _⟩ := sortByE_ok cmpByAbsDelta l.length l le_rfl hcmp
  exact ⟨r, hr⟩

/-! ### Witnesses -/

/-- Witness for C3 at a concrete pair of mappings. -/
theorem compare_emits_exactly_qualifying_witness :
    ((compute_efficiency_changes [("TX", ⟨1000, 100⟩)] [("TX", ⟨800, 100⟩)]).countP
      (fun e => e.state = "TX")) = 1 := by
  have h := compare_emits_exactly_qualifying [("TX", ⟨1000, 100⟩)]
    [("TX", ⟨800, 100⟩)] "TX" (by decide)
  rw [h]
  norm_num [lookupState]

/-- Witness for C4 at the TX scenario. -/
theorem compare_result_formulas_witness :
    (∃ sa sb, (("TX" : String), sa) ∈ [("TX", (⟨1000, 100⟩ : StateStats))]
       ∧ lookupState [("TX", ⟨800, 100⟩)] "TX" = some sb
       ∧ sa.total_gen ≠ 0 ∧ sb.total_gen ≠ 0
       ∧ (10 : ℚ) = sa.total_fuel / sa.total_gen
       ∧ (8 : ℚ) = sb.total_fuel / sb.total_gen
       ∧ (-2 : ℚ) = (8 : ℚ) - (10 : ℚ)
       ∧ (2 : ℚ) = |(-2 : ℚ)|)
    ∧ compute_efficiency_changes [("TX", ⟨1000, 100⟩)] [("TX", ⟨800, 100⟩)]
        = [⟨"TX", 10, 8, -2, 2⟩] := by
  have hc : compute_efficiency_changes [("TX", ⟨1000, 100⟩)] [("TX", ⟨800, 100⟩)]
      = [⟨"TX", 10, 8, -2, 2⟩] := by
    norm_num [compute_efficiency_changes, lookupState, List.filterMap_cons,
              List.filterMap_nil, StateEfficiency.mk.injEq]
  exact compare_result_formulas [("TX", ⟨1000, 100⟩)] [("TX", ⟨800, 100⟩)]
    ⟨"TX", 10, 8, -2, 2⟩ (by rw [hc]; exact List.mem_singleton_self _)

/-- Witness for C6: the unreadable source errors, a readable one whose
only data row is rejected still loads. -/
theorem load_error_only_unreadable_witness :
    ((none : Option (List String)) = none)
    ∧ ∃ st, load_state_efficiency
        (some ["a", "b", "c", "d", "e", "S,F,G", "bad"]) = Except.ok st :=
  ⟨(load_error_only_unreadable none).1 ⟨(), rfl⟩,
   (load_error_only_unreadable (some ["a", "b", "c", "d", "e", "S,F,G", "bad"])).2
     (Option.some_ne_none _)⟩

/-- Witness for C7 at a concrete five-line preamble. -/
theorem loader_discards_first_five_lines_witness :
    (["a", "b", "c", "d", "e"] : List String).length = 5
    ∧ loadLines (["a", "b", "c", "d", "e"] ++ ["S,F,G", "TX,1,2"]) =
        processRows (splitLine "S,F,G") (["TX,1,2"].map splitLine) :=
  ⟨rfl, loader_discards_first_five_lines ["a", "b", "c", "d", "e"]
    ["S,F,G", "TX,1,2"] rfl⟩

/-- Witness for the amended C8 at a run with non-negative values. -/
theorem totals_nonneg_of_nonneg_accepted_witness :
    (∀ t ∈ acceptedRows [headerState, headerFuel, headerGen] [["TX", "5", "2"]],
        0 ≤ t.2.1 ∧ 0 ≤ t.2.2)
    ∧ (0 ≤ (⟨5, 2⟩ : StateStats).total_fuel
       ∧ 0 ≤ (⟨5, 2⟩ : StateStats).total_gen) := by
  have hf : parseFloat (stripCommas "5") = some 5 := by
    have h0 : parseFloat (stripCommas "5") = some ((1 : ℚ) * ((5 : ℕ) : ℚ)) := rfl
    rw [h0]; norm_num
  have hg : parseFloat (stripCommas "2") = some 2 := by
    have h0 : parseFloat (stripCommas "2") = some ((1 : ℚ) * ((2 : ℕ) : ℚ)) := rfl
    rw [h0]; norm_num
  have hrp : rowParse [headerState, headerFuel, headerGen] ["TX", "5", "2"]
      = some ("TX", 5, 2) := by
    unfold rowParse
    have hd : decodeRecord [headerState, headerFuel, headerGen] ["TX", "5", "2"]
        = some ⟨"TX", "5", "2"⟩ := rfl
    simp only [hd, hf, hg]
    norm_num
  have hacc : acceptedRows [headerState, headerFuel, headerGen] [["TX", "5", "2"]]
      = [("TX", 5, 2)] := by
    simp [acceptedRows, List.filterMap_cons, hrp]
  have hnn : ∀ t ∈ acceptedRows [headerState, headerFuel, headerGen]
      [["TX", "5", "2"]], 0 ≤ t.2.1 ∧ 0 ≤ t.2.2 := by
    rw [hacc]
    intro t ht
    rw [List.mem_singleton] at ht
    subst ht
    norm_num
  have hv : lookupState (processRows [headerState, headerFuel, headerGen]
      [["TX", "5", "2"]]).state_map "TX" = some ⟨5, 2⟩ := by
    unfold processRows
    rw [lookup_foldl]
    have hrows : rowsFor "TX" (acceptedRows [headerState, headerFuel, headerGen]
        [["TX", "5", "2"]]) = [("TX", 5, 2)] := by
      rw [hacc]; simp [rowsFor]
    rw [hrows]
    simp [lookupState, addStats, sumFuel, sumGen]
  exact ⟨hnn, totals_nonneg_of_nonneg_accepted [headerState, headerFuel, headerGen]
    [["TX", "5", "2"]] "TX" ⟨5, 2⟩ hnn hv⟩

/-- Witness for C9 at a concrete NaN-free list. -/
theorem sort_by_unwrap_no_panic_witness :
    (∀ e ∈ ([⟨"TX", F64.val 2⟩, ⟨"CA", F64.val 1⟩] : List StateEfficiencyF),
        e.abs_delta ≠ F64.nan)
    ∧ ∃ r, sortByE cmpByAbsDelta
        [⟨"TX", F64.val 2⟩, ⟨"CA", F64.val 1⟩] = Except.ok r :=
  ⟨by decide, sort_by_unwrap_no_panic _ (by decide)⟩

/-- Witness for C10 at a two-line source. -/
theorem short_source_yields_empty_ok_witness :
    (["a", "b"] : List String).length ≤ 6
    ∧ load_state_efficiency (some ["a", "b"]) = Except.ok ⟨[], 0, 0⟩ :=
  ⟨by decide, short_source_yields_empty_ok ["a", "b"] (by decide)⟩

end EIA
